import Mathlib

/-!
Verification of the e-resource backend (src/app.py) against its specification.

Python strings are modelled as `List Char` (`Str`); SQLite tables as Lean
lists of row structures, ordered by rowid; `datetime('now')` as a `Nat`
timestamp passed in by the caller; the external password-hash primitives as
abstract function parameters.  Rationals (`ℚ`) model SQLite's numeric
averages, with `round2` modelling `ROUND(x, 2)` (round half away from zero,
which for the nonnegative averages arising here agrees with rounding half up).
-/

deriving instance DecidableEq for Except

/-- Python `str`, modelled as its list of characters. -/
abbrev Str := List Char

/-- The whitespace characters stripped by Python `str.strip()` (ASCII range). -/
def pySpace (c : Char) : Bool :=
  c = ' ' || c = '\t' || c = '\n' || c = '\r' || c = '\x0b' || c = '\x0c'

/-- Python `str.strip()`: drop leading and trailing whitespace. -/
def pyStrip (s : Str) : Str :=
  ((s.dropWhile pySpace).reverse.dropWhile pySpace).reverse

/-- ASCII lower-casing of one character, as Python `str.lower()` does on ASCII. -/
def lowerChar (c : Char) : Char :=
  if 'A' ≤ c ∧ c ≤ 'Z' then Char.ofNat (c.toNat + 32) else c

/-- Python `str.lower()` (ASCII fragment). -/
def pyLower (s : Str) : Str := s.map lowerChar

/-- Python `s.split(",")` on one character: split at every comma, keeping
empty parts (`"".split(",") = [""]`, `"a,".split(",") = ["a", ""]`). -/
def splitComma : Str → List Str
  | [] => [[]]
  | c :: rest =>
    if c = ',' then [] :: splitComma rest
    else (c :: (splitComma rest).headD []) :: (splitComma rest).tail

/-- Python `",".join(parts)`. -/
def joinComma : List Str → Str
  | [] => []
  | [p] => p
  | p :: ps => p ++ ',' :: joinComma ps

/-- One tag of `admin_add_resource` (src/app.py:559,561): value `t.strip()`,
kept only when `t.strip()` is truthy (non-empty). -/
def cleanTag (t : Str) : Option Str :=
  let t2 := pyStrip t
  if t2 = [] then none else some t2

/-- Tag normalization for a comma-string input
(src/app.py:561): `",".join(t.strip() for t in tags_in.split(",") if t.strip())`. -/
def tags_from_string (s : Str) : Str :=
  joinComma ((splitComma s).filterMap cleanTag)

/-- Tag normalization for a list input
(src/app.py:559): `",".join(t.strip() for t in tags_in if t and t.strip())`. -/
def tags_from_list (ts : List Str) : Str :=
  joinComma (ts.filterMap fun t => if t = [] then none else cleanTag t)

/-- The relative upload prefix `"/uploads/"` (src/app.py:564). -/
def uploadsSep : Str := "/uploads/".data

/-- The alternative relative prefix `"uploads/"` (src/app.py:564). -/
def uploadsRel : Str := "uploads/".data

/-- Python `link.split("/uploads/")`: split on the 9-character separator,
leftmost non-overlapping occurrences.  Structural recursion on a fuel that
bounds the string length (every step consumes at least one character, so the
fuel `s.length` of `splitSep` never runs out). -/
def splitSepF : Nat → Str → List Str
  | _, [] => [[]]
  | 0, s => [s]
  | fuel + 1, c :: rest =>
    if uploadsSep.isPrefixOf (c :: rest) then
      [] :: splitSepF fuel ((c :: rest).drop uploadsSep.length)
    else (c :: (splitSepF fuel rest).headD []) :: (splitSepF fuel rest).tail

/-- Python `link.split("/uploads/")`. -/
def splitSep (s : Str) : List Str := splitSepF s.length s

/-- Python `link.split("/uploads/")[-1]`. -/
def lastSplit (s : Str) : Str := (splitSep s).getLastD []

/-- Link canonicalization of `admin_add_resource` (src/app.py:563-566):
a link starting with the relative upload prefix is rewritten to
`url_for("serve_upload", fname=fname, _external=True)`, i.e. the serving
origin followed by `/uploads/` and the filename taken as the last piece of
`link.split("/uploads/")`.  The origin (scheme plus host) is a parameter. -/
def canonicalize_link (origin : Str) (link : Str) : Str :=
  if !link.isEmpty && (uploadsSep.isPrefixOf link || uploadsRel.isPrefixOf link) then
    origin ++ uploadsSep ++ lastSplit link
  else link

/-- A row of the `ratings` table (src/app.py:71-80): one row per
(resource_id, email), rowid order modelled by list order. -/
structure RatingRow where
  id : Nat
  resource_id : Int
  email : Str
  rating : Int
  created_at : Nat
deriving DecidableEq

/-- The `UNIQUE(resource_id, email)` key test (src/app.py:78). -/
def ratingKey (rid : Int) (em : Str) (x : RatingRow) : Bool :=
  decide (x.resource_id = rid ∧ x.email = em)

/-- The table-level invariant of `UNIQUE(resource_id, email)`
(src/app.py:78): no two rows share the key. -/
def distinctRatingKeys (s : List RatingRow) : Prop :=
  s.Pairwise fun a b => ¬(a.resource_id = b.resource_id ∧ a.email = b.email)

/-- The upsert of `api_rate` (src/app.py:111-115):
`INSERT .. ON CONFLICT(resource_id,email) DO UPDATE SET rating=excluded.rating,
created_at=datetime('now')`.  On conflict the existing row keeps its rowid and
gets the new rating and timestamp; otherwise a fresh row is appended with the
next rowid. -/
def upsertRating (s : List RatingRow) (nextId : Nat) (rid : Int) (em : Str)
    (r : Int) (now : Nat) : List RatingRow × Nat :=
  if s.any (ratingKey rid em) then
    (s.map fun x =>
      if ratingKey rid em x then { x with rating := r, created_at := now } else x,
     nextId)
  else
    (s ++ [⟨nextId, rid, em, r, now⟩], nextId + 1)

/-- SQLite `ROUND(q, 2)`: round to 2 decimal places, half away from zero
(stated for the nonnegative values arising from ratings in [1,5]). -/
def round2 (q : ℚ) : ℚ := ((⌊q * 100 + 1/2⌋ : ℤ) : ℚ) / 100

/-- `SELECT ROUND(AVG(rating),2) AS avg, COUNT(*) AS votes FROM ratings
WHERE resource_id=?` (src/app.py:119), with `avg or 0` for the empty case
(src/app.py:121). -/
def avgVotes (s : List RatingRow) (rid : Int) : ℚ × Nat :=
  let rs := s.filter fun x => decide (x.resource_id = rid)
  let total : Int := (rs.map (·.rating)).sum
  (if rs.length = 0 then 0
   else round2 ((total : ℚ) / (rs.length : ℚ)),
   rs.length)

/-- The closed error taxonomy of the API boundary. -/
inductive ApiError where
  | ValidationError
deriving DecidableEq

/-- The success payload of `api_rate` (src/app.py:121). -/
structure RateResp where
  avg_rating : ℚ
  votes : Nat
deriving DecidableEq

/-- `api_rate` (src/app.py:99-121): normalize the email, validate
(`if not (rid and email and 1 <= rating <= 5)` — nonzero id, non-empty email,
rating in [1,5]), upsert, then recompute and return the fresh average and
vote count for the resource. -/
def api_rate (s : List RatingRow) (nextId : Nat) (rid : Int) (emailRaw : Str)
    (rating : Int) (now : Nat) :
    Except ApiError (List RatingRow × Nat × RateResp) :=
  let email := pyLower (pyStrip emailRaw)
  if rid ≠ 0 ∧ email ≠ [] ∧ 1 ≤ rating ∧ rating ≤ 5 then
    let s2 := (upsertRating s nextId rid email rating now).1
    let n2 := (upsertRating s nextId rid email rating now).2
    Except.ok (s2, n2, ⟨(avgVotes s2 rid).1, (avgVotes s2 rid).2⟩)
  else Except.error ApiError.ValidationError

/-- A row of the `resources` table (src/app.py:39-50). -/
structure ResourceRow where
  id : Int
  title : Str
  type : Str
  course : Str
  tags : Str
  link : Str
  added_by_email : Str
  created_at : Nat
deriving DecidableEq

/-- One output row of `api_ratings_summary` (src/app.py:141-143). -/
structure SummaryRow where
  id : Int
  title : Str
  course : Str
  avg_rating : ℚ
  votes : Nat
deriving DecidableEq

/-- The `ORDER BY avg_rating DESC, votes DESC` comparison (src/app.py:148):
`a` may precede `b` iff `a` has the larger average, or equal averages and at
least as many votes. -/
def summaryLe (a b : SummaryRow) : Bool :=
  decide (b.avg_rating < a.avg_rating) ||
    (decide (a.avg_rating = b.avg_rating) && decide (b.votes ≤ a.votes))

/-- `api_ratings_summary` (src/app.py:135-152): inner-join `resources` to
`ratings` on `rt.resource_id = r.id`, group by resource id (a primary key, so
one group per resource row with at least one rating), compute the rounded
average and vote count, keep groups with `votes >= 1`, order by average
descending then votes descending, and return the first 20. -/
def api_ratings_summary (resources : List ResourceRow)
    (ratings : List RatingRow) : List SummaryRow :=
  ((resources.filterMap fun r =>
      if (ratings.filter fun x => decide (x.resource_id = r.id)).length = 0 then none
      else some ⟨r.id, r.title, r.course,
        round2 (((((ratings.filter fun x => decide (x.resource_id = r.id)).map
            (·.rating)).sum : ℤ) : ℚ) /
          ((ratings.filter fun x => decide (x.resource_id = r.id)).length : ℚ)),
        (ratings.filter fun x => decide (x.resource_id = r.id)).length⟩).mergeSort
    summaryLe).take 20

/-- A row of the `notes` table (src/app.py:82-90). -/
structure NoteRow where
  id : Nat
  resource_id : Int
  email : Str
  text : Str
  created_at : Nat
deriving DecidableEq

/-- The `WHERE id=? AND email=?` match of the note delete (src/app.py:196). -/
def noteKey (nid : Nat) (em : Str) (x : NoteRow) : Bool :=
  decide (x.id = nid ∧ x.email = em)

/-- `api_delete_note` (src/app.py:188-200): normalize the email, reject an
empty one, then `DELETE FROM notes WHERE id=? AND email=?`; the response flag
is `bool(changed)` where `changed` is the number of deleted rows. -/
def api_delete_note (notes : List NoteRow) (note_id : Nat) (emailRaw : Str) :
    Except ApiError (List NoteRow × Bool) :=
  let email := pyLower (pyStrip emailRaw)
  if email = [] then Except.error ApiError.ValidationError
  else
    let changed := notes.countP (noteKey note_id email)
    Except.ok (notes.filter fun x => !noteKey note_id email x, decide (0 < changed))

/-- The literal role `'Student'` of the enrollment insert (src/app.py:320). -/
def studentRole : Str := "Student".data

/-- A row of the `users` table (src/app.py:229-238), including the
`last_seen` column added by `ensure_user_last_seen_column`
(src/app.py:58-63); `NULL` is `none`. -/
structure UserRow where
  user_id : Nat
  name : Str
  email : Str
  enrollment_no : Str
  course : Str
  semester : Str
  mobile : Str
  role : Str
  last_seen : Option Nat
deriving DecidableEq

/-- The JSON body of `link_enrollment` (src/app.py:312-315); an absent or
null field is the empty string. -/
structure EnrollInput where
  email : Str
  name : Str
  enrollment_no : Str
  course : Str
  semester : Str
  mobile : Str
deriving DecidableEq

/-- The row inserted by `link_enrollment` (src/app.py:318-328): trimmed
fields, lower-cased email, role `'Student'`; `user_id` takes the next
autoincrement value and the unlisted `last_seen` column defaults to NULL. -/
def enrolledRow (nextId : Nat) (inp : EnrollInput) : UserRow :=
  ⟨nextId, pyStrip inp.name, pyLower (pyStrip inp.email), pyStrip inp.enrollment_no,
    pyStrip inp.course, pyStrip inp.semester, pyStrip inp.mobile, studentRole, none⟩

/-- `link_enrollment` (src/app.py:309-330): reject when any of the five
required raw fields is empty (`if not all(data.get(f) for f in required)`),
else `INSERT OR REPLACE INTO users (name,email,enrollment_no,course,semester,
mobile,role) VALUES (...,'Student')` — the conflicting row for the unique
email is deleted and a fresh row is appended with the next autoincrement id. -/
def link_enrollment (users : List UserRow) (nextId : Nat) (inp : EnrollInput) :
    Except ApiError (List UserRow × Nat) :=
  if inp.email ≠ [] ∧ inp.name ≠ [] ∧ inp.enrollment_no ≠ [] ∧
      inp.course ≠ [] ∧ inp.semester ≠ [] then
    Except.ok
      (users.filter (fun u => decide (u.email ≠ pyLower (pyStrip inp.email))) ++
        [enrolledRow nextId inp],
       nextId + 1)
  else Except.error ApiError.ValidationError

/-- A row of the `admins` table (src/app.py:241-248). -/
structure AdminRow where
  admin_id : Nat
  name : Str
  email : Str
  password_hash : Str
  role : Str
  created_at : Nat
deriving DecidableEq

/-- A row of the `login_logs` table (src/app.py:251-257). -/
structure LogRow where
  email : Str
  name : Str
  timestamp : Nat
  ip : Str
deriving DecidableEq

/-- The message of the 400 response of `admin_login` (src/app.py:368). -/
def emailPasswordRequiredMsg : Str := "Email and password required".data

/-- The message of the 401 response of `admin_login` (src/app.py:376). -/
def invalidCredsMsg : Str := "Invalid credentials".data

/-- The success redirect of `admin_login` (src/app.py:384). -/
def adminRedirect : Str := "/admin.html".data

/-- The three response shapes of `admin_login`: 400 with an error message,
401 with an error message, or 200 with name/role/redirect. -/
inductive LoginResp where
  | badRequest (msg : Str)
  | unauthorized (msg : Str)
  | ok (name role redirect : Str)
deriving DecidableEq

/-- `admin_login` (src/app.py:360-385): normalize the email, reject an empty
email or password with 400; look up the first admin with matching lower-cased
email (`WHERE LOWER(email)=?` + `fetchone`); `if not row or not
check_password_hash(...)` answer 401 `Invalid credentials`; on success append
a login-log row and answer 200.  The hash verifier is a parameter. -/
def admin_login (verify : Str → Str → Bool) (admins : List AdminRow)
    (logs : List LogRow) (emailRaw password : Str) (now : Nat) (ip : Str) :
    LoginResp × List LogRow :=
  let email := pyLower (pyStrip emailRaw)
  if email = [] ∨ password = [] then (LoginResp.badRequest emailPasswordRequiredMsg, logs)
  else
    match admins.find? fun a => pyLower a.email == email with
    | none => (LoginResp.unauthorized invalidCredsMsg, logs)
    | some a =>
      if verify a.password_hash password then
        (LoginResp.ok a.name a.role adminRedirect, logs ++ [⟨email, a.name, now, ip⟩])
      else (LoginResp.unauthorized invalidCredsMsg, logs)

/-- The whole SQLite store: each table is absent (`none`) or holds its rows. -/
structure DBState where
  users : Option (List UserRow)
  admins : Option (List AdminRow)
  login_logs : Option (List LogRow)
  resources : Option (List ResourceRow)
  ratings : Option (List RatingRow)
  notes : Option (List NoteRow)
deriving DecidableEq

/-- The store before any table has been created. -/
def emptyDB : DBState := ⟨none, none, none, none, none, none⟩

/-- The seeded administrator name (src/app.py:265). -/
def seedAdminName : Str := "System Admin".data

/-- The seeded administrator email (src/app.py:266). -/
def seedAdminEmail : Str := "admin@kkhsou.ac.in".data

/-- The default password passed to `generate_password_hash` (src/app.py:267). -/
def defaultAdminPassword : Str := "Admin@123".data

/-- The `role` default `'Admin'` of the admins table (src/app.py:246). -/
def adminRole : Str := "Admin".data

/-- The administrator row seeded by `init_tables` (src/app.py:262-270):
first autoincrement id, fixed name and email, the hashed default password,
default role, seeding timestamp. -/
def seedAdmin (hash : Str) (now : Nat) : AdminRow :=
  ⟨1, seedAdminName, seedAdminEmail, hash, adminRole, now⟩

/-- `init_tables` (src/app.py:224-271): `CREATE TABLE IF NOT EXISTS` for
users, admins and login_logs, then `SELECT 1 FROM admins LIMIT 1` and, when
no row exists, insert the single seeded administrator.  The hash generator
and clock are parameters. -/
def init_tables (genHash : Str → Str) (now : Nat) (db : DBState) : DBState :=
  let adminsL := db.admins.getD []
  { db with
    users := some (db.users.getD []),
    login_logs := some (db.login_logs.getD []),
    admins := some
      (if adminsL.isEmpty then [seedAdmin (genHash defaultAdminPassword) now]
       else adminsL) }

/-- `ensure_resources_table` (src/app.py:36-52): `CREATE TABLE IF NOT EXISTS
resources`. -/
def ensure_resources_table (db : DBState) : DBState :=
  { db with resources := some (db.resources.getD []) }

/-- `ensure_ratings_notes_tables` (src/app.py:67-92): `CREATE TABLE IF NOT
EXISTS` for ratings and notes. -/
def ensure_ratings_notes_tables (db : DBState) : DBState :=
  { db with ratings := some (db.ratings.getD []),
            notes := some (db.notes.getD []) }

/-- One schema-bootstrap pass in startup order: `ensure_resources_table()`
(src/app.py:56), `ensure_ratings_notes_tables()` (src/app.py:95), then
`init_tables()` (src/app.py:658). -/
def bootstrap (genHash : Str → Str) (now : Nat) (db : DBState) : DBState :=
  init_tables genHash now (ensure_ratings_notes_tables (ensure_resources_table db))

/-- A sequence of bootstrap passes starting from the empty store, each with
its own hash generator and clock. -/
def runBootstraps (ps : List ((Str → Str) × Nat)) : DBState :=
  ps.foldl (fun db q => bootstrap q.1 q.2 db) emptyDB

/-- The scheme prefix every `url_for(..., _external=True)` origin starts
with (`http://...` or `https://...`). -/
def httpPrefix : Str := "http".data

/-- A sample lower-cased email. -/
def emailA : Str := "a@x.com".data

/-- Another sample lower-cased email. -/
def emailB : Str := "b@x.com".data

/-- A sample note text. -/
def demoNoteText : Str := "hi".data

/-- A note owned by `emailB`, rowid 1, on resource 1. -/
def demoNote : NoteRow := ⟨1, 1, emailB, demoNoteText, 0⟩

/-- A sample serving origin. -/
def demoOrigin : Str := "http://localhost:5000".data

/-- A sample relative upload link. -/
def demoRelLink : Str := "/uploads/f.pdf".data

/-- A sample absolute link. -/
def demoAbsLink : Str := "http://y/a.pdf".data

/-- A raw (untrimmed, mixed-case) email whose normal form is `emailA`. -/
def aliceEmailRaw : Str := "A@x.com ".data

/-- A raw name. -/
def aliceName : Str := " Alice ".data

/-- A sample enrollment number. -/
def aliceEnroll : Str := "e1".data

/-- A sample course. -/
def aliceCourse : Str := "CS".data

/-- A sample semester. -/
def aliceSem : Str := "3".data

/-- A complete enrollment request body (mobile absent). -/
def aliceInput : EnrollInput := ⟨aliceEmailRaw, aliceName, aliceEnroll, aliceCourse, aliceSem, []⟩

/-- A pre-existing user row for `emailA` that is currently online
(`last_seen` set). -/
def oldAlice : UserRow :=
  ⟨1, aliceName, emailA, aliceEnroll, aliceCourse, aliceSem, [], studentRole, some 99⟩

/-- An admin row for `emailB`. -/
def demoAdmin : AdminRow := ⟨1, seedAdminName, emailB, defaultAdminPassword, adminRole, 0⟩

/-- A hash generator for bootstrap witnesses. -/
def demoHash : Str → Str := fun s => s

/-- A store whose admins table already holds a row. -/
def dbWithAdmin : DBState := ⟨some [], some [demoAdmin], some [], some [], some [], some []⟩

/-- The spec example input `"a, b ,,c"`. -/
def tagsExampleRaw : Str := "a, b ,,c".data

/-- The spec example normal form `"a,b,c"`. -/
def tagsExampleNorm : Str := "a,b,c".data

/-- A first list-form tag. -/
def tagA : Str := "a".data

/-- An untrimmed list-form tag. -/
def tagBRaw : Str := " b ".data

/-- A third list-form tag. -/
def tagC : Str := "c".data

/-- The spec example in list form. -/
def tagsListExample : List Str := [tagA, tagBRaw, [], tagC]

/-- The ratings table after rating resource 1 as `emailA` with 4. -/
def wS1 : List RatingRow := [⟨0, 1, pyLower (pyStrip emailA), 4, 0⟩]

/-- The ratings table after re-rating with 2. -/
def wS2 : List RatingRow := [⟨0, 1, pyLower (pyStrip emailA), 2, 1⟩]

/-- The response of the first rate call. -/
def wResp1 : RateResp := ⟨(avgVotes wS1 1).1, (avgVotes wS1 1).2⟩

/-- The response of the second rate call. -/
def wResp2 : RateResp := ⟨(avgVotes wS2 1).1, (avgVotes wS2 1).2⟩

lemma uploads_not_prefix_h (xs : Str) :
    ¬ uploadsSep <+: ('h' :: xs) ∧ ¬ uploadsRel <+: ('h' :: xs) := by
  constructor
  · rintro ⟨t, ht⟩
    have h2 : '/' :: ("uploads/".data ++ t) = 'h' :: xs := ht
    injection h2 with h3 h4
    exact absurd h3 (by decide)
  · rintro ⟨t, ht⟩
    have h2 : 'u' :: ("ploads/".data ++ t) = 'h' :: xs := ht
    injection h2 with h3 h4
    exact absurd h3 (by decide)

/-- C4 counterexample: `api_rate` accepts a negative resource id — with
resource_id = -1 and otherwise valid fields the call is not rejected with a
`ValidationError`, because the source checks only Python truthiness
(`rid != 0`), not `rid > 0`. -/
theorem api_rate_accepts_negative_id :
    api_rate [] 0 (-1) emailA 3 0 ≠ Except.error ApiError.ValidationError := by
  decide

/-- C4 (amended): `api_rate` fails with `ValidationError` if and only if the
resource id is zero, or the normalized email is empty, or the rating lies
outside [1,5]; in particular a negative resource id is accepted. -/
theorem api_rate_validation_iff (s : List RatingRow) (n : Nat) (rid : Int)
    (emRaw : Str) (r : Int) (t : Nat) :
    api_rate s n rid emRaw r t = Except.error ApiError.ValidationError ↔
      rid = 0 ∨ pyLower (pyStrip emRaw) = [] ∨ r < 1 ∨ 5 < r := by
  simp only [api_rate]
  split_ifs with h
  · obtain ⟨h0, h1, h2, h3⟩ := h
    refine iff_of_false (by simp) ?_
    push_neg
    exact ⟨h0, h1, by omega, by omega⟩
  · refine iff_of_true rfl ?_
    by_contra hno
    push_neg at hno
    exact h ⟨hno.1, hno.2.1, by omega, by omega⟩

/-- C3 counterexample: deleting note 1 (owned by `emailB`) as requester
`emailA` mutates nothing but answers with flag `ok = false` — a failure
indication, not the no-op success the claim states (the response is
`jsonify({"ok": bool(changed)})` with `changed = 0`). -/
theorem api_delete_note_foreign_returns_false :
    api_delete_note [demoNote] 1 emailA = Except.ok ([demoNote], false) := by
  decide

/-- C3 (amended): for a non-empty requesting email, `api_delete_note` removes
exactly the rows matching both the note id and the normalized email, and when
the note belongs to a different email (or does not exist) it mutates no row
and returns a 200 response — not an authorization error — whose `ok` flag is
`false`, revealing that nothing was deleted. -/
theorem api_delete_note_scoped (notes : List NoteRow) (nid : Nat) (emRaw : Str)
    (hem : pyLower (pyStrip emRaw) ≠ []) :
    api_delete_note notes nid emRaw =
      Except.ok
        (notes.filter fun x => !noteKey nid (pyLower (pyStrip emRaw)) x,
         decide (0 < notes.countP (noteKey nid (pyLower (pyStrip emRaw))))) ∧
    ((∀ x ∈ notes, x.id = nid → x.email ≠ pyLower (pyStrip emRaw)) →
      api_delete_note notes nid emRaw = Except.ok (notes, false)) := by
  constructor
  · simp only [api_delete_note]
    rw [if_neg hem]
  · intro hnone
    simp only [api_delete_note]
    rw [if_neg hem]
    have hc : notes.countP (noteKey nid (pyLower (pyStrip emRaw))) = 0 := by
      rw [List.countP_eq_zero]
      intro a ha
      simp only [noteKey, decide_eq_true_eq, not_and]
      exact hnone a ha
    have hf : (notes.filter fun x => !noteKey nid (pyLower (pyStrip emRaw)) x) = notes := by
      rw [List.filter_eq_self]
      intro a ha
      simp only [noteKey, Bool.not_eq_true', decide_eq_false_iff_not, not_and]
      exact hnone a ha
    rw [hf, hc]
    rfl

/-- C3 witness: the amended statement evaluated where no note matches at
all (empty table). -/
theorem api_delete_note_scoped_witness :
    api_delete_note [] 2 emailA = Except.ok ([], false) :=
  (api_delete_note_scoped [] 2 emailA (by decide)).2 (by intro x hx; cases hx)

/-- C7: `link_enrollment` fails with `ValidationError` iff one of the five
required raw fields is empty; otherwise it fully replaces any existing row
with the same normalized email — dropping every such row and appending a
fresh row built entirely from the new input (mobile defaulting to empty,
role reset to `Student`) — and inserts a fresh row when the email is new. -/
theorem link_enrollment_replaces (users : List UserRow) (nextId : Nat)
    (inp : EnrollInput) :
    (link_enrollment users nextId inp = Except.error ApiError.ValidationError ↔
      inp.email = [] ∨ inp.name = [] ∨ inp.enrollment_no = [] ∨
        inp.course = [] ∨ inp.semester = []) ∧
    (inp.email ≠ [] → inp.name ≠ [] → inp.enrollment_no ≠ [] →
      inp.course ≠ [] → inp.semester ≠ [] →
      link_enrollment users nextId inp =
        Except.ok
          (users.filter (fun u => decide (u.email ≠ pyLower (pyStrip inp.email))) ++
            [enrolledRow nextId inp],
           nextId + 1)) := by
  constructor
  · unfold link_enrollment
    split_ifs with h
    · obtain ⟨h1, h2, h3, h4, h5⟩ := h
      refine iff_of_false (by simp) ?_
      push_neg
      exact ⟨h1, h2, h3, h4, h5⟩
    · refine iff_of_true rfl ?_
      by_contra hno
      push_neg at hno
      exact h ⟨hno.1, hno.2.1, hno.2.2.1, hno.2.2.2.1, hno.2.2.2.2⟩
  · intro h1 h2 h3 h4 h5
    unfold link_enrollment
    rw [if_pos ⟨h1, h2, h3, h4, h5⟩]

/-- C7 witness: linking `aliceInput` over a table that already holds
`oldAlice` (same normalized email) replaces the row. -/
theorem link_enrollment_replaces_witness :
    link_enrollment [oldAlice] 2 aliceInput =
      Except.ok
        (List.filter (fun u => decide (u.email ≠ pyLower (pyStrip aliceInput.email)))
            [oldAlice] ++ [enrolledRow 2 aliceInput],
         3) :=
  (link_enrollment_replaces [oldAlice] 2 aliceInput).2
    (by decide) (by decide) (by decide) (by decide) (by decide)

/-- C10: re-linking an enrollment for an email that already has a User row
replaces the whole row by delete-and-reinsert: the result drops every row
with that email and appends a row whose surrogate `user_id` is the fresh
autoincrement value — distinct from the old row's id — and whose `last_seen`
is NULL, so the old row (and its presence state) is gone from the table. -/
theorem relink_resets_presence (users : List UserRow) (nextId : Nat)
    (inp : EnrollInput) (old : UserRow)
    (hold : old ∈ users) (hmail : old.email = pyLower (pyStrip inp.email))
    (hids : ∀ u ∈ users, u.user_id < nextId)
    (h1 : inp.email ≠ []) (h2 : inp.name ≠ []) (h3 : inp.enrollment_no ≠ [])
    (h4 : inp.course ≠ []) (h5 : inp.semester ≠ []) :
    link_enrollment users nextId inp =
      Except.ok
        (users.filter (fun u => decide (u.email ≠ pyLower (pyStrip inp.email))) ++
          [enrolledRow nextId inp],
         nextId + 1) ∧
    (enrolledRow nextId inp).user_id = nextId ∧
    (enrolledRow nextId inp).last_seen = none ∧
    old.user_id ≠ nextId ∧
    old ∉ users.filter (fun u => decide (u.email ≠ pyLower (pyStrip inp.email))) ++
        [enrolledRow nextId inp] := by
  refine ⟨?_, rfl, rfl, ?_, ?_⟩
  · unfold link_enrollment
    rw [if_pos ⟨h1, h2, h3, h4, h5⟩]
  · have := hids old hold
    omega
  · intro hmem
    rcases List.mem_append.mp hmem with hf | hr
    · have hne := (List.mem_filter.mp hf).2
      rw [decide_eq_true_eq] at hne
      exact hne hmail
    · have heq : old = enrolledRow nextId inp := by
        simpa using hr
      have hid : old.user_id = nextId := by rw [heq]; rfl
      have := hids old hold
      omega

/-- C10 witness: re-linking Alice (old row online, user_id 1) with next
autoincrement id 2. -/
theorem relink_resets_presence_witness :
    link_enrollment [oldAlice] 2 aliceInput =
      Except.ok
        (List.filter (fun u => decide (u.email ≠ pyLower (pyStrip aliceInput.email)))
            [oldAlice] ++ [enrolledRow 2 aliceInput],
         3) ∧
    (enrolledRow 2 aliceInput).user_id = 2 ∧
    (enrolledRow 2 aliceInput).last_seen = none ∧
    oldAlice.user_id ≠ 2 ∧
    oldAlice ∉ List.filter (fun u => decide (u.email ≠ pyLower (pyStrip aliceInput.email)))
        [oldAlice] ++ [enrolledRow 2 aliceInput] :=
  relink_resets_presence [oldAlice] 2 aliceInput oldAlice (by decide) (by decide)
    (by decide) (by decide) (by decide) (by decide) (by decide) (by decide)

/-- C8: `admin_login` does not leak why authentication failed — with any
admin table, a request whose email matches no admin row and a request whose
email matches a row whose password does not verify produce the identical
response (same kind, same `Invalid credentials` message) and leave the login
log untouched. -/
theorem admin_login_uniform_failure (verify : Str → Str → Bool)
    (admins : List AdminRow) (logs : List LogRow)
    (e1 p1 e2 p2 : Str) (n1 n2 : Nat) (ip1 ip2 : Str) (a : AdminRow)
    (he1 : pyLower (pyStrip e1) ≠ []) (hp1 : p1 ≠ [])
    (he2 : pyLower (pyStrip e2) ≠ []) (hp2 : p2 ≠ [])
    (hnone : (admins.find? fun x => pyLower x.email == pyLower (pyStrip e1)) = none)
    (hsome : (admins.find? fun x => pyLower x.email == pyLower (pyStrip e2)) = some a)
    (hverify : verify a.password_hash p2 = false) :
    admin_login verify admins logs e1 p1 n1 ip1 =
      admin_login verify admins logs e2 p2 n2 ip2 ∧
    admin_login verify admins logs e1 p1 n1 ip1 =
      (LoginResp.unauthorized invalidCredsMsg, logs) := by
  have hL : admin_login verify admins logs e1 p1 n1 ip1 =
      (LoginResp.unauthorized invalidCredsMsg, logs) := by
    simp only [admin_login]
    rw [if_neg (by push_neg; exact ⟨he1, hp1⟩), hnone]
  have hR : admin_login verify admins logs e2 p2 n2 ip2 =
      (LoginResp.unauthorized invalidCredsMsg, logs) := by
    simp only [admin_login]
    rw [if_neg (by push_neg; exact ⟨he2, hp2⟩), hsome]
    simp [hverify]
  exact ⟨hL.trans hR.symm, hL⟩

/-- C8 witness: against a table holding only `demoAdmin` (email `emailB`),
an unknown email and a wrong password for `emailB` yield the same response. -/
theorem admin_login_uniform_failure_witness :
    admin_login (fun _ _ => false) [demoAdmin] [] emailA emailB 0 [] =
      admin_login (fun _ _ => false) [demoAdmin] [] emailB emailA 1 [] ∧
    admin_login (fun _ _ => false) [demoAdmin] [] emailA emailB 0 [] =
      (LoginResp.unauthorized invalidCredsMsg, []) :=
  admin_login_uniform_failure (fun _ _ => false) [demoAdmin] [] emailA emailB emailB
    emailA 0 1 [] [] demoAdmin (by decide) (by decide) (by decide) (by decide)
    (by decide) (by decide) rfl

lemma bootstrap_admins_preserved (g : Str → Str) (t : Nat) (db : DBState)
    (a : AdminRow) (l : List AdminRow) (h : db.admins = some (a :: l)) :
    (bootstrap g t db).admins = some (a :: l) := by
  simp [bootstrap, init_tables, ensure_ratings_notes_tables, ensure_resources_table, h]

lemma bootstrap_bootstrap (g g2 : Str → Str) (t t2 : Nat) :
    bootstrap g2 t2 (bootstrap g t emptyDB) = bootstrap g t emptyDB := rfl

lemma runBootstraps_aux (g : Str → Str) (t : Nat)
    (ps : List ((Str → Str) × Nat)) :
    ps.foldl (fun db q => bootstrap q.1 q.2 db) (bootstrap g t emptyDB) =
      bootstrap g t emptyDB := by
  induction ps with
  | nil => rfl
  | cons q qs ih => rw [List.foldl_cons, bootstrap_bootstrap]; exact ih

/-- C9: the schema bootstrap is idempotent — every non-empty sequence of
bootstrap passes from the empty store yields exactly the state of the first
pass: each core table exists with the contents of the first run (all empty
but the admins table, which holds exactly the one administrator seeded by the
first pass), and a pass over a store whose admins table already holds a row
never adds another (the seed fires only when the table is empty at call
time). -/
theorem bootstrap_idempotent (p : (Str → Str) × Nat)
    (ps : List ((Str → Str) × Nat)) :
    runBootstraps (p :: ps) = bootstrap p.1 p.2 emptyDB ∧
    (runBootstraps (p :: ps)).admins =
      some [seedAdmin (p.1 defaultAdminPassword) p.2] ∧
    (runBootstraps (p :: ps)).users = some [] ∧
    (runBootstraps (p :: ps)).login_logs = some [] ∧
    (runBootstraps (p :: ps)).resources = some [] ∧
    (runBootstraps (p :: ps)).ratings = some [] ∧
    (runBootstraps (p :: ps)).notes = some [] ∧
    ∀ (db : DBState) (g : Str → Str) (t : Nat) (a : AdminRow)
      (l : List AdminRow),
      db.admins = some (a :: l) → (bootstrap g t db).admins = some (a :: l) := by
  have hrun : runBootstraps (p :: ps) = bootstrap p.1 p.2 emptyDB := by
    rw [runBootstraps, List.foldl_cons]
    exact runBootstraps_aux p.1 p.2 ps
  refine ⟨hrun, ?_, ?_, ?_, ?_, ?_, ?_,
    fun db g t a l h => bootstrap_admins_preserved g t db a l h⟩
  all_goals rw [hrun]
  all_goals rfl

/-- C9 witness: two bootstrap passes leave exactly the one admin seeded by
the first, and a pass over a store already holding `demoAdmin` adds none. -/
theorem bootstrap_idempotent_witness :
    runBootstraps [(demoHash, 0), (demoHash, 5)] = bootstrap demoHash 0 emptyDB ∧
    (runBootstraps [(demoHash, 0), (demoHash, 5)]).admins =
      some [seedAdmin (demoHash defaultAdminPassword) 0] ∧
    (bootstrap demoHash 9 dbWithAdmin).admins = some [demoAdmin] :=
  ⟨(bootstrap_idempotent (demoHash, 0) [(demoHash, 5)]).1,
   (bootstrap_idempotent (demoHash, 0) [(demoHash, 5)]).2.1,
   (bootstrap_idempotent (demoHash, 0) [(demoHash, 5)]).2.2.2.2.2.2.2
     dbWithAdmin demoHash 9 demoAdmin [] rfl⟩

/-- C6: link canonicalization is idempotent — when the serving origin starts
with the `http` scheme (as every `url_for(..., _external=True)` origin does),
re-canonicalizing the output of a canonicalization leaves it unchanged; and a
link that does not begin with either relative upload prefix (in particular an
already-absolute URL) is returned unmodified. -/
theorem canonicalize_link_idem :
    (∀ origin link : Str, httpPrefix.isPrefixOf origin = true →
      canonicalize_link origin (canonicalize_link origin link) =
        canonicalize_link origin link) ∧
    (∀ origin link : Str, uploadsSep.isPrefixOf link = false →
      uploadsRel.isPrefixOf link = false →
      canonicalize_link origin link = link) := by
  constructor
  · intro origin link hhttp
    by_cases hc : (!link.isEmpty &&
        (uploadsSep.isPrefixOf link || uploadsRel.isPrefixOf link)) = true
    · have hstep : canonicalize_link origin link =
          origin ++ uploadsSep ++ lastSplit link := by
        unfold canonicalize_link
        rw [if_pos hc]
      rw [hstep]
      obtain ⟨tl, htl⟩ := List.isPrefixOf_iff_prefix.mp hhttp
      have ho : origin = 'h' :: ('t' :: 't' :: 'p' :: tl) := by
        rw [← htl]; rfl
      have hcons : origin ++ uploadsSep ++ lastSplit link =
          'h' :: (('t' :: 't' :: 'p' :: tl) ++ uploadsSep ++ lastSplit link) := by
        rw [ho]; rfl
      unfold canonicalize_link
      rw [hcons]
      rw [if_neg (by
        intro hcontra
        simp only [Bool.and_eq_true, Bool.or_eq_true] at hcontra
        obtain ⟨-, hor⟩ := hcontra
        rcases hor with h | h
        · exact (uploads_not_prefix_h _).1 (List.isPrefixOf_iff_prefix.mp h)
        · exact (uploads_not_prefix_h _).2 (List.isPrefixOf_iff_prefix.mp h))]
    · have hstep : canonicalize_link origin link = link := by
        unfold canonicalize_link
        rw [if_neg hc]
      rw [hstep]
      exact hstep
  · intro origin link hs hr
    unfold canonicalize_link
    rw [if_neg (by simp [hs, hr])]

/-- C6 witness: canonicalizing a relative upload link against a concrete
origin is stable under a second canonicalization, and an absolute link is
returned unmodified. -/
theorem canonicalize_link_idem_witness :
    canonicalize_link demoOrigin (canonicalize_link demoOrigin demoRelLink) =
      canonicalize_link demoOrigin demoRelLink ∧
    canonicalize_link demoOrigin demoAbsLink = demoAbsLink :=
  ⟨canonicalize_link_idem.1 demoOrigin demoRelLink (by decide),
   canonicalize_link_idem.2 demoOrigin demoAbsLink (by decide) (by decide)⟩

lemma dropWhile_dropWhile {α : Type} (p : α → Bool) (l : List α) :
    List.dropWhile p (List.dropWhile p l) = List.dropWhile p l := by
  induction l with
  | nil => rfl
  | cons c t ih =>
    by_cases h : p c
    · simp [List.dropWhile_cons, h, ih]
    · simp [List.dropWhile_cons, h]

lemma head?_dropWhile_false {α : Type} (p : α → Bool) (l : List α) (a : α)
    (h : (List.dropWhile p l).head? = some a) : p a = false := by
  induction l with
  | nil => simp at h
  | cons c t ih =>
    rw [List.dropWhile_cons] at h
    by_cases hc : p c
    · rw [if_pos hc] at h
      exact ih h
    · rw [if_neg hc] at h
      simp only [List.head?_cons, Option.some.injEq] at h
      subst h
      simpa using hc

lemma getLast?_dropWhile {α : Type} (p : α → Bool) (l : List α) (a : α)
    (hl : l.getLast? = some a) (ha : p a = false) :
    (List.dropWhile p l).getLast? = some a := by
  induction l with
  | nil => simp at hl
  | cons c t ih =>
    cases t with
    | nil =>
      simp only [List.getLast?_singleton, Option.some.injEq] at hl
      subst hl
      rw [List.dropWhile_cons, if_neg (by simp [ha])]
      simp
    | cons d t2 =>
      rw [List.getLast?_cons_cons] at hl
      rw [List.dropWhile_cons]
      by_cases hc : p c
      · rw [if_pos hc]
        exact ih hl
      · rw [if_neg hc, List.getLast?_cons_cons]
        exact hl

lemma dropWhile_eq_self_of_head {α : Type} (p : α → Bool) (l : List α) (a : α)
    (h : l.head? = some a) (ha : p a = false) : List.dropWhile p l = l := by
  cases l with
  | nil => rfl
  | cons c t =>
    simp only [List.head?_cons, Option.some.injEq] at h
    subst h
    rw [List.dropWhile_cons, if_neg (by simp [ha])]

lemma pyStrip_idem (s : Str) : pyStrip (pyStrip s) = pyStrip s := by
  unfold pyStrip
  set A := s.dropWhile pySpace with hA
  set B := A.reverse.dropWhile pySpace with hB
  have hF1 : B.reverse.dropWhile pySpace = B.reverse := by
    by_cases hBe : B = []
    · rw [hBe]; rfl
    · have hAne : A ≠ [] := by
        intro h0
        apply hBe
        rw [hB, h0]
        rfl
      obtain ⟨a0, t0, hA0⟩ : ∃ a0 t0, A = a0 :: t0 := by
        cases hAe : A with
        | nil => exact absurd hAe hAne
        | cons x y => exact ⟨x, y, rfl⟩
      have hhead : A.head? = some a0 := by rw [hA0]; rfl
      have hpa : pySpace a0 = false := by
        apply head?_dropWhile_false pySpace s a0
        rw [← hA]
        exact hhead
      have hAl : A.reverse.getLast? = some a0 := by
        rw [List.getLast?_reverse]
        exact hhead
      have hBl : B.getLast? = some a0 := by
        rw [hB]
        exact getLast?_dropWhile pySpace A.reverse a0 hAl hpa
      have hBh : B.reverse.head? = some a0 := by
        rw [List.head?_reverse]
        exact hBl
      exact dropWhile_eq_self_of_head pySpace B.reverse a0 hBh hpa
  rw [hF1, List.reverse_reverse]
  have hB2 : B.dropWhile pySpace = B := by
    rw [hB]
    exact dropWhile_dropWhile pySpace A.reverse
  rw [hB2]

lemma mem_pyStrip {a : Char} {s : Str} (h : a ∈ pyStrip s) : a ∈ s := by
  unfold pyStrip at h
  rw [List.mem_reverse] at h
  have h1 := (List.dropWhile_sublist _).subset h
  rw [List.mem_reverse] at h1
  exact (List.dropWhile_sublist _).subset h1

lemma splitComma_cons_comma (t : Str) : splitComma (',' :: t) = [] :: splitComma t := by
  simp [splitComma]

lemma splitComma_cons_other (c : Char) (t : Str) (h : c ≠ ',') :
    splitComma (c :: t) = (c :: (splitComma t).headD []) :: (splitComma t).tail := by
  simp [splitComma, h]

lemma splitComma_ne_nil (s : Str) : splitComma s ≠ [] := by
  cases s with
  | nil => simp [splitComma]
  | cons c t =>
    by_cases h : c = ','
    · rw [h, splitComma_cons_comma]
      simp
    · rw [splitComma_cons_other c t h]
      simp

lemma exists_cons_of_splitComma (s : Str) : ∃ q qs, splitComma s = q :: qs := by
  cases h : splitComma s with
  | nil => exact absurd h (splitComma_ne_nil s)
  | cons q qs => exact ⟨q, qs, rfl⟩

lemma splitComma_parts_no_comma (s : Str) :
    ∀ part ∈ splitComma s, ',' ∉ part := by
  induction s with
  | nil =>
    intro part hp
    simp [splitComma] at hp
    simp [hp]
  | cons c t ih =>
    intro part hp
    by_cases h : c = ','
    · rw [h, splitComma_cons_comma] at hp
      rcases List.mem_cons.mp hp with rfl | hmem
      · simp
      · exact ih part hmem
    · obtain ⟨q, qs, hq⟩ := exists_cons_of_splitComma t
      rw [splitComma_cons_other c t h, hq] at hp
      simp only [List.headD_cons, List.tail_cons] at hp
      rcases List.mem_cons.mp hp with rfl | hmem
      · intro hin
        rcases List.mem_cons.mp hin with he | hin2
        · exact h he.symm
        · exact ih q (by rw [hq]; exact List.mem_cons_self q qs) hin2
      · exact ih part (by rw [hq]; exact List.mem_cons_of_mem q hmem)

lemma splitComma_no_comma (l : Str) (h : ',' ∉ l) : splitComma l = [l] := by
  induction l with
  | nil => rfl
  | cons c t ih =>
    have hc : c ≠ ',' := by
      intro he
      exact h (by rw [he]; exact List.mem_cons_self _ _)
    have ht : ',' ∉ t := fun hm => h (List.mem_cons_of_mem c hm)
    rw [splitComma_cons_other c t hc, ih ht]
    rfl

lemma splitComma_append (q t : Str) (h : ',' ∉ q) :
    splitComma (q ++ ',' :: t) = q :: splitComma t := by
  induction q with
  | nil => simpa using splitComma_cons_comma t
  | cons c q2 ih =>
    have hc : c ≠ ',' := by
      intro he
      exact h (by rw [he]; exact List.mem_cons_self _ _)
    have hq2 : ',' ∉ q2 := fun hm => h (List.mem_cons_of_mem c hm)
    rw [List.cons_append, splitComma_cons_other c (q2 ++ ',' :: t) hc, ih hq2]
    rfl

lemma splitComma_joinComma (qs : List Str) (hqs : ∀ x ∈ qs, ',' ∉ x)
    (hne : qs ≠ []) : splitComma (joinComma qs) = qs := by
  induction qs with
  | nil => exact absurd rfl hne
  | cons q rs ih =>
    cases rs with
    | nil => simpa [joinComma] using splitComma_no_comma q (hqs q (by simp))
    | cons r rs2 =>
      have hj : joinComma (q :: r :: rs2) = q ++ ',' :: joinComma (r :: rs2) := rfl
      rw [hj, splitComma_append q _ (hqs q (by simp))]
      rw [ih (fun x hx => hqs x (by simp [hx])) (by simp)]

lemma cleanTag_eq_some {t x : Str} (h : cleanTag t = some x) :
    x = pyStrip t ∧ pyStrip t ≠ [] := by
  simp only [cleanTag] at h
  split_ifs at h with h2
  cases h
  exact ⟨rfl, h2⟩

lemma filterMap_cleanTag_self (ps : List Str)
    (h : ∀ x ∈ ps, pyStrip x = x ∧ x ≠ []) : ps.filterMap cleanTag = ps := by
  induction ps with
  | nil => rfl
  | cons q qs ih =>
    obtain ⟨hq1, hq2⟩ := h q (by simp)
    have hct : cleanTag q = some q := by
      simp [cleanTag, hq1, hq2]
    rw [List.filterMap_cons, hct, ih (fun x hx => h x (by simp [hx]))]

lemma tags_elements (s : Str) :
    ∀ x ∈ (splitComma s).filterMap cleanTag, pyStrip x = x ∧ x ≠ [] ∧ ',' ∉ x := by
  intro x hx
  obtain ⟨t, ht, hct⟩ := List.mem_filterMap.mp hx
  obtain ⟨hxeq, hne⟩ := cleanTag_eq_some hct
  subst hxeq
  refine ⟨pyStrip_idem t, hne, ?_⟩
  intro hc
  exact splitComma_parts_no_comma s t ht (mem_pyStrip hc)

/-- C5: tag normalization is idempotent — re-normalizing the normal form of
any comma-string yields it unchanged — and both input variants normalize the
spec example to the comma-joined trimmed non-empty tags in input order. -/
theorem tags_normalization_idem :
    (∀ s : Str, tags_from_string (tags_from_string s) = tags_from_string s) ∧
    tags_from_string tagsExampleRaw = tagsExampleNorm ∧
    tags_from_list tagsListExample = tagsExampleNorm := by
  refine ⟨?_, by decide, by decide⟩
  intro s
  unfold tags_from_string
  cases hps : (splitComma s).filterMap cleanTag with
  | nil => rfl
  | cons q qs =>
    have helts := tags_elements s
    rw [hps] at helts
    rw [splitComma_joinComma (q :: qs) (fun x hx => (helts x hx).2.2) (by simp)]
    rw [filterMap_cleanTag_self (q :: qs) (fun x hx => ⟨(helts x hx).1, (helts x hx).2.1⟩)]

lemma upd_fields (rid : Int) (em : Str) (r : Int) (t : Nat) (x : RatingRow) :
    (if ratingKey rid em x then { x with rating := r, created_at := t } else x).resource_id
        = x.resource_id ∧
    (if ratingKey rid em x then { x with rating := r, created_at := t } else x).email
        = x.email := by
  split_ifs <;> exact ⟨rfl, rfl⟩

lemma upsert_preserves_distinct (s : List RatingRow) (n : Nat) (rid : Int)
    (em : Str) (r : Int) (t : Nat) (h : distinctRatingKeys s) :
    distinctRatingKeys (upsertRating s n rid em r t).1 := by
  unfold upsertRating
  split_ifs with hany
  · unfold distinctRatingKeys at h ⊢
    rw [List.pairwise_map]
    refine h.imp ?_
    intro a b hab hcon
    apply hab
    rwa [(upd_fields rid em r t a).1, (upd_fields rid em r t a).2,
      (upd_fields rid em r t b).1, (upd_fields rid em r t b).2] at hcon
  · unfold distinctRatingKeys at h ⊢
    rw [List.pairwise_append]
    refine ⟨h, by simp, ?_⟩
    intro a ha b hb
    simp only [List.mem_singleton] at hb
    subst hb
    intro hcon
    apply hany
    rw [List.any_eq_true]
    refine ⟨a, ha, ?_⟩
    simp only [ratingKey, decide_eq_true_eq]
    exact ⟨hcon.1, hcon.2⟩

lemma filter_map_invariant (pq : RatingRow → Bool) (f : RatingRow → RatingRow)
    (s : List RatingRow) (hpres : ∀ x, pq (f x) = pq x)
    (hid : ∀ x, pq x = true → f x = x) :
    (s.map f).filter pq = s.filter pq := by
  induction s with
  | nil => rfl
  | cons c cs ih =>
    rw [List.map_cons, List.filter_cons, List.filter_cons, hpres c]
    by_cases hc : pq c
    · rw [if_pos hc, if_pos hc, hid c hc, ih]
    · rw [if_neg (by simp [hc]), if_neg (by simp [hc]), ih]

lemma filter_others_upsert (s : List RatingRow) (n : Nat) (rid : Int)
    (em : Str) (r : Int) (t : Nat) :
    ((upsertRating s n rid em r t).1.filter fun x =>
        decide (x.resource_id = rid ∧ x.email ≠ em)) =
      s.filter fun x => decide (x.resource_id = rid ∧ x.email ≠ em) := by
  unfold upsertRating
  split_ifs with hany
  · apply filter_map_invariant
    · intro x
      by_cases hx : ratingKey rid em x <;> simp [hx]
    · intro x hx
      rw [if_neg ?_]
      simp only [decide_eq_true_eq] at hx
      simp only [ratingKey, decide_eq_true_eq, not_and]
      intro _
      exact hx.2
  · rw [List.filter_append]
    have hnil : (([⟨n, rid, em, r, t⟩] : List RatingRow).filter fun x =>
        decide (x.resource_id = rid ∧ x.email ≠ em)) = [] := by simp
    rw [hnil, List.append_nil]

lemma map_update_id (rid : Int) (em : Str) (r : Int) (t : Nat)
    (cs : List RatingRow) (hnone : ∀ z ∈ cs, ratingKey rid em z = false) :
    (cs.map fun x =>
      if ratingKey rid em x then { x with rating := r, created_at := t } else x) = cs := by
  induction cs with
  | nil => rfl
  | cons c cs2 ih =>
    rw [List.map_cons, if_neg (by simp [hnone c (by simp)]),
      ih fun z hz => hnone z (by simp [hz])]

lemma filter_key_upsert (s : List RatingRow) (n : Nat) (rid : Int) (em : Str)
    (r : Int) (t : Nat) (h : distinctRatingKeys s) :
    ∃ i, (upsertRating s n rid em r t).1.filter (ratingKey rid em) =
      [⟨i, rid, em, r, t⟩] := by
  unfold upsertRating
  split_ifs with hany
  · induction s with
    | nil => simp at hany
    | cons c cs ih =>
      obtain ⟨hRc, htail⟩ := List.pairwise_cons.mp h
      rw [List.map_cons]
      by_cases hc : ratingKey rid em c
      · obtain ⟨hcr, hce⟩ : c.resource_id = rid ∧ c.email = em := by
          simpa [ratingKey] using hc
        have hupd : (if ratingKey rid em c then
            { c with rating := r, created_at := t } else c) = ⟨c.id, rid, em, r, t⟩ := by
          rw [if_pos hc]
          cases c
          simp_all
        rw [hupd]
        have hnone : ∀ z ∈ cs, ratingKey rid em z = false := by
          intro z hz
          have hz2 := hRc z hz
          simp only [ratingKey, decide_eq_false_iff_not]
          intro hcon
          exact hz2 ⟨hcr.trans hcon.1.symm, hce.trans hcon.2.symm⟩
        rw [map_update_id rid em r t cs hnone, List.filter_cons,
          if_pos (by simp [ratingKey]), List.filter_eq_nil_iff.mpr
            (fun z hz => by simp [hnone z hz])]
        exact ⟨c.id, rfl⟩
      · have hany2 : cs.any (ratingKey rid em) = true := by
          rcases List.any_eq_true.mp hany with ⟨z, hz, hkz⟩
          rcases List.mem_cons.mp hz with rfl | hz2
          · exact absurd hkz (by simp [hc])
          · exact List.any_eq_true.mpr ⟨z, hz2, hkz⟩
        rw [if_neg hc, List.filter_cons, if_neg (by simp [hc])]
        exact ih htail hany2
  · have hnil : s.filter (ratingKey rid em) = [] := by
      rw [List.filter_eq_nil_iff]
      intro a ha hka
      exact hany (List.any_eq_true.mpr ⟨a, ha, hka⟩)
    rw [List.filter_append, hnil, List.nil_append, List.filter_cons,
      if_pos (by simp [ratingKey])]
    exact ⟨n, rfl⟩

lemma length_filter_rid_split (rid : Int) (em : Str) (l : List RatingRow) :
    (l.filter fun x => decide (x.resource_id = rid)).length =
      (l.filter (ratingKey rid em)).length +
      (l.filter fun x => decide (x.resource_id = rid ∧ x.email ≠ em)).length := by
  induction l with
  | nil => rfl
  | cons c cs ih =>
    by_cases h1 : c.resource_id = rid <;> by_cases h2 : c.email = em <;>
      simp [List.filter_cons, ratingKey, h1, h2, ih] <;> omega

lemma sum_filter_rid_split (rid : Int) (em : Str) (l : List RatingRow) :
    ((l.filter fun x => decide (x.resource_id = rid)).map (·.rating)).sum =
      ((l.filter (ratingKey rid em)).map (·.rating)).sum +
      ((l.filter fun x => decide (x.resource_id = rid ∧ x.email ≠ em)).map (·.rating)).sum := by
  induction l with
  | nil => rfl
  | cons c cs ih =>
    by_cases h1 : c.resource_id = rid <;> by_cases h2 : c.email = em <;>
      simp [List.filter_cons, ratingKey, h1, h2, ih] <;> omega

/-- C1: calling `api_rate` twice for the same (resource_id, email) — from any
store satisfying the UNIQUE(resource_id, email) invariant — leaves exactly
one rating row for that pair, holding the second rating and timestamp, and
the second call returns a vote count and rounded average computed from the
other users' rows plus the most recent rating only: the first call's value is
overwritten, never accumulated. -/
theorem rate_twice_overwrites (s0 s1 s2 : List RatingRow) (n0 n1 n2 : Nat)
    (resp1 resp2 : RateResp) (rid : Int) (emRaw : Str) (r1 r2 : Int) (t1 t2 : Nat)
    (hkeys : distinctRatingKeys s0)
    (hapi1 : api_rate s0 n0 rid emRaw r1 t1 = Except.ok (s1, n1, resp1))
    (hapi2 : api_rate s1 n1 rid emRaw r2 t2 = Except.ok (s2, n2, resp2)) :
    (s2.filter (ratingKey rid (pyLower (pyStrip emRaw)))).length = 1 ∧
    (∀ x ∈ s2, ratingKey rid (pyLower (pyStrip emRaw)) x = true →
      x.rating = r2 ∧ x.created_at = t2) ∧
    resp2.votes =
      (s0.filter fun x =>
        decide (x.resource_id = rid ∧ x.email ≠ pyLower (pyStrip emRaw))).length + 1 ∧
    resp2.avg_rating =
      round2 (((((s0.filter fun x =>
            decide (x.resource_id = rid ∧ x.email ≠ pyLower (pyStrip emRaw))).map
            (·.rating)).sum + r2 : ℤ) : ℚ) /
        (((s0.filter fun x =>
            decide (x.resource_id = rid ∧ x.email ≠ pyLower (pyStrip emRaw))).length
            + 1 : ℕ) : ℚ)) := by
  simp only [api_rate] at hapi1 hapi2
  split_ifs at hapi1 with hc1
  · split_ifs at hapi2 with hc2
    · simp only [Except.ok.injEq, Prod.mk.injEq] at hapi1 hapi2
      obtain ⟨hs1, hn1, hresp1⟩ := hapi1
      obtain ⟨hs2, hn2, hresp2⟩ := hapi2
      subst hs1
      subst hn1
      subst hresp1
      subst hs2
      subst hn2
      subst hresp2
      have hk1 : distinctRatingKeys
          (upsertRating s0 n0 rid (pyLower (pyStrip emRaw)) r1 t1).1 :=
        upsert_preserves_distinct s0 n0 rid (pyLower (pyStrip emRaw)) r1 t1 hkeys
      obtain ⟨i, hkey⟩ := filter_key_upsert
        (upsertRating s0 n0 rid (pyLower (pyStrip emRaw)) r1 t1).1
        (upsertRating s0 n0 rid (pyLower (pyStrip emRaw)) r1 t1).2
        rid (pyLower (pyStrip emRaw)) r2 t2 hk1
      have hoth : ((upsertRating
            (upsertRating s0 n0 rid (pyLower (pyStrip emRaw)) r1 t1).1
            (upsertRating s0 n0 rid (pyLower (pyStrip emRaw)) r1 t1).2
            rid (pyLower (pyStrip emRaw)) r2 t2).1.filter fun x =>
          decide (x.resource_id = rid ∧ x.email ≠ pyLower (pyStrip emRaw))) =
          s0.filter fun x =>
            decide (x.resource_id = rid ∧ x.email ≠ pyLower (pyStrip emRaw)) := by
        rw [filter_others_upsert, filter_others_upsert]
      have hlen : ((upsertRating
            (upsertRating s0 n0 rid (pyLower (pyStrip emRaw)) r1 t1).1
            (upsertRating s0 n0 rid (pyLower (pyStrip emRaw)) r1 t1).2
            rid (pyLower (pyStrip emRaw)) r2 t2).1.filter fun x =>
          decide (x.resource_id = rid)).length =
          (s0.filter fun x =>
            decide (x.resource_id = rid ∧ x.email ≠ pyLower (pyStrip emRaw))).length
            + 1 := by
        rw [length_filter_rid_split rid (pyLower (pyStrip emRaw)), hkey, hoth]
        simp only [List.length_singleton]
        omega
      have hsum : (((upsertRating
            (upsertRating s0 n0 rid (pyLower (pyStrip emRaw)) r1 t1).1
            (upsertRating s0 n0 rid (pyLower (pyStrip emRaw)) r1 t1).2
            rid (pyLower (pyStrip emRaw)) r2 t2).1.filter fun x =>
          decide (x.resource_id = rid)).map (·.rating)).sum =
          ((s0.filter fun x =>
            decide (x.resource_id = rid ∧ x.email ≠ pyLower (pyStrip emRaw))).map
            (·.rating)).sum + r2 := by
        rw [sum_filter_rid_split rid (pyLower (pyStrip emRaw)), hkey, hoth]
        simp only [List.map_cons, List.map_nil, List.sum_cons, List.sum_nil]
        omega
      refine ⟨by rw [hkey]; rfl, ?_, ?_, ?_⟩
      · intro x hx hkx
        have hmem : x ∈ (upsertRating
            (upsertRating s0 n0 rid (pyLower (pyStrip emRaw)) r1 t1).1
            (upsertRating s0 n0 rid (pyLower (pyStrip emRaw)) r1 t1).2
            rid (pyLower (pyStrip emRaw)) r2 t2).1.filter
              (ratingKey rid (pyLower (pyStrip emRaw))) :=
          List.mem_filter.mpr ⟨hx, hkx⟩
        rw [hkey] at hmem
        simp only [List.mem_singleton] at hmem
        rw [hmem]
        exact ⟨rfl, rfl⟩
      · show (avgVotes _ rid).2 = _
        simp only [avgVotes]
        exact hlen
      · show (avgVotes _ rid).1 = _
        simp only [avgVotes]
        rw [if_neg (by omega), hsum, hlen]

/-- C1 witness: rating resource 1 as `emailA` with 4 then 2 leaves one row
with rating 2 and returns one vote. -/
theorem rate_twice_overwrites_witness :
    (wS2.filter (ratingKey 1 (pyLower (pyStrip emailA)))).length = 1 ∧
    (∀ x ∈ wS2, ratingKey 1 (pyLower (pyStrip emailA)) x = true →
      x.rating = 2 ∧ x.created_at = 1) ∧
    wResp2.votes =
      (List.filter (fun x => decide (x.resource_id = 1 ∧ x.email ≠ pyLower (pyStrip emailA)))
        ([] : List RatingRow)).length + 1 ∧
    wResp2.avg_rating =
      round2 (((((List.filter
            (fun x => decide (x.resource_id = 1 ∧ x.email ≠ pyLower (pyStrip emailA)))
            ([] : List RatingRow)).map (·.rating)).sum + 2 : ℤ) : ℚ) /
        (((List.filter (fun x => decide (x.resource_id = 1 ∧ x.email ≠ pyLower (pyStrip emailA)))
            ([] : List RatingRow)).length + 1 : ℕ) : ℚ)) := by
  have hup1 : upsertRating [] 0 1 (pyLower (pyStrip emailA)) 4 0 = (wS1, 1) := by decide
  have hup2 : upsertRating wS1 1 1 (pyLower (pyStrip emailA)) 2 1 = (wS2, 1) := by decide
  have hapi1 : api_rate [] 0 1 emailA 4 0 = Except.ok (wS1, 1, wResp1) := by
    simp only [api_rate]
    rw [if_pos (by decide), hup1]
    rfl
  have hapi2 : api_rate wS1 1 1 emailA 2 1 = Except.ok (wS2, 1, wResp2) := by
    simp only [api_rate]
    rw [if_pos (by decide), hup2]
    rfl
  exact rate_twice_overwrites [] wS1 wS2 0 1 1 wResp1 wResp2 1 emailA 4 2 0 1
    List.Pairwise.nil hapi1 hapi2

lemma summaryLe_trans (a b c : SummaryRow) (h1 : summaryLe a b = true)
    (h2 : summaryLe b c = true) : summaryLe a c = true := by
  simp only [summaryLe, Bool.or_eq_true, Bool.and_eq_true, decide_eq_true_eq] at *
  rcases h1 with h1 | ⟨h1e, h1v⟩ <;> rcases h2 with h2 | ⟨h2e, h2v⟩
  · exact Or.inl (h2.trans h1)
  · exact Or.inl (by rw [← h2e]; exact h1)
  · exact Or.inl (by rw [h1e]; exact h2)
  · exact Or.inr ⟨h1e.trans h2e, le_trans h2v h1v⟩

lemma summaryLe_total (a b : SummaryRow) : (summaryLe a b || summaryLe b a) = true := by
  simp only [summaryLe, Bool.or_eq_true, Bool.and_eq_true, decide_eq_true_eq]
  rcases lt_trichotomy a.avg_rating b.avg_rating with h | h | h
  · exact Or.inr (Or.inl h)
  · rcases Nat.le_total b.votes a.votes with hv | hv
    · exact Or.inl (Or.inr ⟨h, hv⟩)
    · exact Or.inr (Or.inr ⟨h.symm, hv⟩)
  · exact Or.inl (Or.inl h)

/-- C2: `api_ratings_summary` returns at most 20 rows, each with at least one
vote and an actually-existing rating row for its resource, and the output is
ordered by the tie-break rule: pairwise, the earlier row has the strictly
larger rounded average, or an equal average and at least as many votes —
hence a resource with a higher average but fewer votes ranks above one with a
lower average and more votes. -/
theorem ratings_summary_sorted (resources : List ResourceRow)
    (ratings : List RatingRow) :
    (api_ratings_summary resources ratings).length ≤ 20 ∧
    (∀ x ∈ api_ratings_summary resources ratings,
      1 ≤ x.votes ∧ ∃ rt ∈ ratings, rt.resource_id = x.id) ∧
    (api_ratings_summary resources ratings).Pairwise fun a b =>
      b.avg_rating < a.avg_rating ∨
        (a.avg_rating = b.avg_rating ∧ b.votes ≤ a.votes) := by
  refine ⟨?_, ?_, ?_⟩
  · simp only [api_ratings_summary]
    exact List.length_take_le 20 _
  · intro x hx
    simp only [api_ratings_summary] at hx
    have hx2 := (List.take_sublist 20 _).subset hx
    rw [List.mem_mergeSort] at hx2
    obtain ⟨r, hr, hf⟩ := List.mem_filterMap.mp hx2
    split_ifs at hf with hlen
    have hx3 := Option.some.inj hf
    have hne : (ratings.filter fun y => decide (y.resource_id = r.id)) ≠ [] := by
      intro h0
      rw [h0] at hlen
      exact hlen rfl
    obtain ⟨rt, hrt⟩ := List.exists_mem_of_ne_nil _ hne
    have hm := List.mem_filter.mp hrt
    refine ⟨?_, rt, hm.1, ?_⟩
    · rw [← hx3]
      simpa using Nat.one_le_iff_ne_zero.mpr hlen
    · rw [← hx3]
      simpa using hm.2
  · simp only [api_ratings_summary]
    refine List.Pairwise.imp ?_
      (List.Pairwise.sublist (List.take_sublist 20 _)
        (List.sorted_mergeSort summaryLe_trans summaryLe_total _))
    intro a b hab
    simpa only [summaryLe, Bool.or_eq_true, Bool.and_eq_true,
      decide_eq_true_eq] using hab
